import Mathlib

/-
Verification of the LLM-agent core of this repository against its design
specification.  The shallow embedding below translates, from the source:

  * the argument sanitizer and the streaming chat_completion adapter of
    client/llm_client.py,
  * the tool contract (Tool.is_mutating, Tool.get_confirmation), the
    ToolResult dataclass and FileDiff.to_diff of tools/base.py,
  * ScoutTool.execute of tools/builtin/scout.py.

External library functions used by the source (json.loads / json.dumps /
ast.literal_eval of the Python standard library, difflib.unified_diff)
are modelled by executable Lean functions that reproduce the behavior the
source relies on; the model restrictions are stated in the doc comment of
each such function.  The event model (StreamEvent, ToolCall, TextDelta of
client/response.py) is not part of the source tree; it is modelled from
the spec's data-model table.
-/

set_option maxHeartbeats 1000000
set_option maxRecDepth 4000

namespace BTP

/-- JSON-representable Python values: the payloads that travel through the
sanitizer and the tool-call decoding path (None, bools, ints, strings,
lists, string-keyed dicts).  Floats are outside the model. -/
inductive PyVal : Type where
  | null : PyVal
  | bool (b : Bool) : PyVal
  | int (n : Int) : PyVal
  | str (s : String) : PyVal
  | list (xs : List PyVal) : PyVal
  | dict (kvs : List (String × PyVal)) : PyVal

/-- The character for a decimal digit value. -/
def digitChar (d : Nat) : Char := Char.ofNat (48 + d)

/-- The decimal value of a digit character. -/
def digitVal (c : Char) : Nat := c.toNat - 48

/-- Decimal digit characters of a positive natural number, most
significant first (fuel-indexed division loop). -/
def natCharsAux : Nat → Nat → List Char
  | 0, _ => []
  | _ + 1, 0 => []
  | fuel + 1, n => natCharsAux fuel (n / 10) ++ [digitChar (n % 10)]

/-- Decimal digit characters of a natural number. -/
def natChars (n : Nat) : List Char :=
  if n = 0 then ['0'] else natCharsAux (n + 1) n

/-- Consume a maximal run of decimal digits, folding them into an
accumulator; returns the value and the unconsumed remainder. -/
def readDigits : List Char → Nat → Nat × List Char
  | c :: cs, acc => if c.isDigit then readDigits cs (10 * acc + digitVal c) else (acc, c :: cs)
  | [], acc => (acc, [])

/-- Decimal digit characters of an integer (with a leading minus sign
when negative). -/
def intChars (n : Int) : List Char :=
  if n < 0 then '-' :: natChars n.natAbs else natChars n.toNat

/-- JSON string-body escaping: backslash and double quote are escaped with
a backslash.  (Python's json.dumps additionally escapes control and
non-ASCII characters; that refinement is immaterial to the properties
proved here, which never inspect such characters.) -/
def escChars : List Char → List Char
  | [] => []
  | c :: cs => if c = '"' ∨ c = '\\' then '\\' :: c :: escChars cs else c :: escChars cs

/-- Parse a quoted-string body up to the (unescaped) closing quote `q`;
a backslash makes the following character literal. -/
def parseQuoted (q : Char) : List Char → Option (List Char × List Char)
  | [] => none
  | c :: cs =>
    if c = '\\' then
      match cs with
      | [] => none
      | d :: cs2 => (parseQuoted q cs2).map fun p => (d :: p.1, p.2)
    else if c = q then some ([], cs)
    else (parseQuoted q cs).map fun p => (c :: p.1, p.2)
termination_by structural cs => cs

mutual

/-- Serialize a `PyVal` to JSON text, compact separators.  Models Python's
`json.dumps` on JSON-representable values (which emits `", "`/`": "`
separators; the spacing is immaterial to every property proved here). -/
def dumpVal : PyVal → List Char
  | .null => "null".data
  | .bool true => "true".data
  | .bool false => "false".data
  | .int n => intChars n
  | .str s => '"' :: (escChars s.data ++ ['"'])
  | .list xs => '[' :: (dumpElems xs ++ [']'])
  | .dict kvs => '{' :: (dumpMembers kvs ++ ['}'])

/-- Comma-separated serialization of array elements. -/
def dumpElems : List PyVal → List Char
  | [] => []
  | [v] => dumpVal v
  | v :: vs => dumpVal v ++ ',' :: dumpElems vs

/-- Comma-separated serialization of object members. -/
def dumpMembers : List (String × PyVal) → List Char
  | [] => []
  | [(k, v)] => '"' :: (escChars k.data ++ '"' :: ':' :: dumpVal v)
  | (k, v) :: ms => ('"' :: (escChars k.data ++ '"' :: ':' :: dumpVal v)) ++ ',' :: dumpMembers ms

end


mutual

/-- Recursive-descent JSON parser (fuel-indexed for termination); returns
the parsed value and the unconsumed remainder.  Models Python's
`json.loads` restricted to whitespace-free JSON text without floats;
every concrete string this development evaluates it on is in that
fragment. -/
def parseVal : Nat → List Char → Option (PyVal × List Char)
  | 0, _ => none
  | _ + 1, [] => none
  | fuel + 1, c :: cs =>
    if c = 'n' then
      match cs with
      | 'u' :: 'l' :: 'l' :: rest => some (.null, rest)
      | _ => none
    else if c = 't' then
      match cs with
      | 'r' :: 'u' :: 'e' :: rest => some (.bool true, rest)
      | _ => none
    else if c = 'f' then
      match cs with
      | 'a' :: 'l' :: 's' :: 'e' :: rest => some (.bool false, rest)
      | _ => none
    else if c = '"' then
      (parseQuoted '"' cs).map fun p => (.str (String.mk p.1), p.2)
    else if c = '[' then
      if cs.head? = some ']' then some (.list [], cs.tail)
      else (parseElems fuel cs).map fun p => (.list p.1, p.2)
    else if c = '{' then
      if cs.head? = some '}' then some (.dict [], cs.tail)
      else (parseMembers fuel cs).map fun p => (.dict p.1, p.2)
    else if c = '-' then
      match cs with
      | d :: _ =>
        if d.isDigit then
          let p := readDigits cs 0
          some (.int (-(p.1 : Int)), p.2)
        else none
      | [] => none
    else if c.isDigit then
      let p := readDigits (c :: cs) 0
      some (.int (p.1 : Int), p.2)
    else none
termination_by structural fuel cs => fuel

/-- Parse one or more comma-separated array elements followed by `]`. -/
def parseElems : Nat → List Char → Option (List PyVal × List Char)
  | 0, _ => none
  | fuel + 1, cs =>
    match parseVal fuel cs with
    | none => none
    | some (v, cs1) =>
      if cs1.head? = some ',' then
        match parseElems fuel cs1.tail with
        | none => none
        | some (vs, cs2) => some (v :: vs, cs2)
      else if cs1.head? = some ']' then some ([v], cs1.tail)
      else none
termination_by structural fuel cs => fuel

/-- Parse one or more comma-separated object members followed by `}`. -/
def parseMembers : Nat → List Char → Option (List (String × PyVal) × List Char)
  | 0, _ => none
  | fuel + 1, cs =>
    if cs.head? = some '"' then
      match parseQuoted '"' cs.tail with
      | none => none
      | some (k, cs1) =>
        if cs1.head? = some ':' then
          match parseVal fuel cs1.tail with
          | none => none
          | some (v, cs2) =>
            if cs2.head? = some ',' then
              match parseMembers fuel cs2.tail with
              | none => none
              | some (ms, cs3) => some ((String.mk k, v) :: ms, cs3)
            else if cs2.head? = some '}' then some ([(String.mk k, v)], cs2.tail)
            else none
        else none
    else none
termination_by structural fuel cs => fuel

end

/-- Model of Python's `json.dumps` (see `dumpVal`). -/
def jsonDumps (v : PyVal) : String := String.mk (dumpVal v)

/-- Model of Python's `json.loads` (see `parseVal`): succeeds iff the
whole string is one JSON value. -/
def jsonLoads (s : String) : Option PyVal :=
  match parseVal (2 * s.length + 2) s.data with
  | some (v, []) => some v
  | _ => none

/-- Drop leading spaces. -/
def skipSpaces : List Char → List Char
  | [] => []
  | c :: cs => if c = ' ' then skipSpaces cs else c :: cs

/-- Result of evaluating a Python literal: either a JSON-representable
value, or a set literal (which `json.dumps` cannot serialize).  Model
restriction: the literal grammar modelled is the JSON-representable
fragment plus top-level set literals of JSON-representable elements,
which covers every literal this development evaluates. -/
inductive LitVal : Type where
  | json (v : PyVal) : LitVal
  | set (xs : List PyVal) : LitVal

mutual

/-- Recursive-descent parser for Python literal values (fuel-indexed):
`None` / `True` / `False`, integers, single- or double-quoted strings,
lists, and dicts with string keys, with spaces allowed between tokens.
Part of the model of `ast.literal_eval`. -/
def parsePyVal : Nat → List Char → Option (PyVal × List Char)
  | 0, _ => none
  | _ + 1, [] => none
  | fuel + 1, c :: cs =>
    if c = 'N' then
      match cs with
      | 'o' :: 'n' :: 'e' :: rest => some (.null, rest)
      | _ => none
    else if c = 'T' then
      match cs with
      | 'r' :: 'u' :: 'e' :: rest => some (.bool true, rest)
      | _ => none
    else if c = 'F' then
      match cs with
      | 'a' :: 'l' :: 's' :: 'e' :: rest => some (.bool false, rest)
      | _ => none
    else if c = '\'' ∨ c = '"' then
      (parseQuoted c cs).map fun p => (.str (String.mk p.1), p.2)
    else if c = '[' then
      let cs0 := skipSpaces cs
      if cs0.head? = some ']' then some (.list [], cs0.tail)
      else (parsePyElems fuel ']' cs0).map fun p => (.list p.1, p.2)
    else if c = '{' then
      let cs0 := skipSpaces cs
      if cs0.head? = some '}' then some (.dict [], cs0.tail)
      else (parsePyMembers fuel cs0).map fun p => (.dict p.1, p.2)
    else if c = '-' then
      match cs with
      | d :: _ =>
        if d.isDigit then
          let p := readDigits cs 0
          some (.int (-(p.1 : Int)), p.2)
        else none
      | [] => none
    else if c.isDigit then
      let p := readDigits (c :: cs) 0
      some (.int (p.1 : Int), p.2)
    else none
termination_by structural fuel cs => fuel

/-- One or more comma-separated Python literal elements followed by the
closing character `close`. -/
def parsePyElems : Nat → Char → List Char → Option (List PyVal × List Char)
  | 0, _, _ => none
  | fuel + 1, close, cs =>
    match parsePyVal fuel (skipSpaces cs) with
    | none => none
    | some (v, cs1) =>
      let cs2 := skipSpaces cs1
      if cs2.head? = some ',' then
        match parsePyElems fuel close cs2.tail with
        | none => none
        | some (vs, cs3) => some (v :: vs, cs3)
      else if cs2.head? = some close then some ([v], cs2.tail)
      else none
termination_by structural fuel close cs => fuel

/-- One or more comma-separated Python dict members (string keys)
followed by `}`. -/
def parsePyMembers : Nat → List Char → Option (List (String × PyVal) × List Char)
  | 0, _ => none
  | fuel + 1, cs =>
    match (skipSpaces cs).head? with
    | none => none
    | some q =>
      if q = '\'' ∨ q = '"' then
        match parseQuoted q (skipSpaces cs).tail with
        | none => none
        | some (k, cs1) =>
          let cs2 := skipSpaces cs1
          if cs2.head? = some ':' then
            match parsePyVal fuel (skipSpaces cs2.tail) with
            | none => none
            | some (v, cs3) =>
              let cs4 := skipSpaces cs3
              if cs4.head? = some ',' then
                match parsePyMembers fuel cs4.tail with
                | none => none
                | some (ms, cs5) => some ((String.mk k, v) :: ms, cs5)
              else if cs4.head? = some '}' then some ([(String.mk k, v)], cs4.tail)
              else none
          else none
      else none
termination_by structural fuel cs => fuel

end

/-- Top-level Python literal: a brace literal is first tried as a dict,
then as a set; anything else is parsed as a plain literal value. -/
def parsePyTop (fuel : Nat) (cs : List Char) : Option (LitVal × List Char) :=
  let cs0 := skipSpaces cs
  if cs0.head? = some '{' then
    let cs1 := skipSpaces cs0.tail
    if cs1.head? = some '}' then some (.json (.dict []), cs1.tail)
    else
      match parsePyMembers fuel cs1 with
      | some (ms, rest) => some (.json (.dict ms), rest)
      | none =>
        match parsePyElems fuel '}' cs1 with
        | some (xs, rest) => some (.set xs, rest)
        | none => none
  else
    (parsePyVal fuel cs0).map fun p => (.json p.1, p.2)

/-- Model of Python's `ast.literal_eval`: succeeds iff the whole string is
one literal (see `parsePyTop` for the modelled grammar). -/
def literalEval (s : String) : Option LitVal :=
  match parsePyTop (2 * s.length + 2) s.data with
  | some (v, rest) => if skipSpaces rest = [] then some v else none
  | none => none

/-- The JSON-representable content of an evaluated literal; a set literal
has none. -/
def litToJson : LitVal → Option PyVal
  | .json v => some v
  | .set _ => none

/-- Model of `json.dumps` applied to an `ast.literal_eval` result: a set
is not JSON-serializable (Python raises TypeError, modelled as `none`). -/
def litDumps (lv : LitVal) : Option String := (litToJson lv).map jsonDumps

/-- The value of a message's tool-call `arguments` field as the sanitizer
in `LLMClient.chat_completion` sees it: a dict, a string, or absent/other
(any value that is neither a dict nor a string is left untouched by the
source, so one constructor stands for all of them). -/
inductive ArgVal : Type where
  | dict (kvs : List (String × PyVal)) : ArgVal
  | str (s : String) : ArgVal
  | absent : ArgVal

/-- The argument-sanitization step of `LLMClient.chat_completion`
(client/llm_client.py): a dict is dumped to JSON; a string is tested as
JSON and, failing that, repaired via `ast.literal_eval` + `json.dumps`,
any failure leaving it unchanged (`except: pass` in the source); anything
else is untouched. -/
def sanitizeArgs : ArgVal → ArgVal
  | .dict kvs => .str (jsonDumps (.dict kvs))
  | .str s =>
    match jsonLoads s with
    | some _ => .str s
    | none =>
      match literalEval s with
      | some lv =>
        match litDumps lv with
        | some out => .str out
        | none => .str s
      | none => .str s
  | .absent => .absent

/-- An outgoing conversation message, reduced to the parts the sanitizer
touches: each element of `tool_calls` is the `arguments` value of one
recorded tool call. -/
structure Message where
  role : String
  content : Option String
  tool_calls : List ArgVal

/-- Sanitization of one message's tool-call history. -/
def sanitizeMessage (m : Message) : Message :=
  ⟨m.role, m.content, m.tool_calls.map sanitizeArgs⟩

/-- The sanitized message list sent to the endpoint by `chat_completion`. -/
def sanitizeMessages (msgs : List Message) : List Message :=
  msgs.map sanitizeMessage

/-- Modelled from the spec: token accounting attached to MESSAGE_COMPLETE
(client/response.py is not under src/). -/
structure TokenUsage where
  prompt_tokens : Nat
  completion_tokens : Nat

/-- A decoded tool-call `arguments` payload: a parsed structured value, or
the raw string passed through when JSON parsing failed. -/
inductive ToolArgs : Type where
  | parsed (v : PyVal) : ToolArgs
  | raw (s : String) : ToolArgs

/-- Modelled from the spec: a fully-decoded request to invoke a tool
(client/response.py is not under src/). -/
structure ToolCall where
  call_id : String
  name : String
  arguments : ToolArgs

/-- Modelled from the spec: the event kinds of the canonical event model
(client/response.py is not under src/). -/
inductive StreamEventType : Type where
  | TEXT_DELTA : StreamEventType
  | TOOL_CALL_COMPLETE : StreamEventType
  | MESSAGE_COMPLETE : StreamEventType
  | ERROR : StreamEventType
deriving DecidableEq

/-- Modelled from the spec: one unit of streamed model output, with
exactly one payload matching its kind (client/response.py is not under
src/). -/
inductive StreamEvent : Type where
  | textDelta (content : String) : StreamEvent
  | toolCallComplete (tc : ToolCall) : StreamEvent
  | messageComplete (usage : Option TokenUsage) : StreamEvent
  | error (msg : String) : StreamEvent

/-- The kind of an event. -/
def StreamEvent.type : StreamEvent → StreamEventType
  | .textDelta _ => .TEXT_DELTA
  | .toolCallComplete _ => .TOOL_CALL_COMPLETE
  | .messageComplete _ => .MESSAGE_COMPLETE
  | .error _ => .ERROR

/-- True for the two stream-terminating event kinds. -/
def StreamEvent.isTerminal (e : StreamEvent) : Bool :=
  e.type = StreamEventType.MESSAGE_COMPLETE ∨ e.type = StreamEventType.ERROR

/-- The `function` part of a provider tool-call chunk fragment:
`{name?, arguments?}` (either may be absent). -/
structure FuncFragment where
  name : Option String
  arguments : Option String

/-- One entry of `chunk.choices[0].delta.tool_calls`. -/
structure ToolCallFragment where
  id : Option String
  function : FuncFragment

/-- The `chunk.choices[0].delta` record of the provider streaming wire format. -/
structure Delta where
  content : Option String
  tool_calls : List ToolCallFragment

/-- One element of `chunk.choices`. -/
structure Choice where
  delta : Delta

/-- One incremental unit of the provider's streaming response. -/
structure Chunk where
  choices : List Choice

/-- Argument decoding for an incoming tool-call chunk, translated from
`LLMClient.chat_completion`: `json.loads(tc.function.arguments or "{}")`
with a bare `except` falling back to the raw `tc.function.arguments`
value (an absent or empty string defaults to `"{}"`, which always
parses, so the raw fallback only ever carries a non-empty string). -/
def loadChunkArgs (arguments : Option String) : ToolArgs :=
  let defaulted : String :=
    match arguments with
    | some s => if s = "" then "{}" else s
    | none => "{}"
  match jsonLoads defaulted with
  | some v => .parsed v
  | none => .raw (match arguments with | some s => s | none => "")

/-- The synthesized call id `f"call_{id(tc)}"`: `addr` is the runtime
object identity (CPython: memory address) of the fragment object in the
current run. -/
def synthCallId (addr : Nat) : String := "call_" ++ toString addr

/-- Models `tc.id or f"call_{id(tc)}"`: a missing or empty id is replaced by the
synthesized one. -/
def chunkCallId (id : Option String) (addr : Nat) : String :=
  match id with
  | some i => if i = "" then synthCallId addr else i
  | none => synthCallId addr

/-- TEXT_DELTA events emitted for one chunk: one event iff
`chunk.choices` is non-empty and `choices[0].delta.content` is truthy
(present and non-empty). -/
def chunkTextEvents (c : Chunk) : List StreamEvent :=
  match c.choices.head? with
  | none => []
  | some ch =>
    match ch.delta.content with
    | none => []
    | some s => if s = "" then [] else [.textDelta s]

/-- TOOL_CALL_COMPLETE events emitted for one chunk: one event iff
`chunk.choices` and `choices[0].delta.tool_calls` are non-empty and the
first fragment's function name is truthy; `addr` is the runtime identity
of that fragment object. -/
def chunkToolEvents (addr : Nat) (c : Chunk) : List StreamEvent :=
  match c.choices.head? with
  | none => []
  | some ch =>
    match ch.delta.tool_calls.head? with
    | none => []
    | some tc =>
      match tc.function.name with
      | none => []
      | some nm =>
        if nm = "" then []
        else [.toolCallComplete ⟨chunkCallId tc.id addr, nm, loadChunkArgs tc.function.arguments⟩]

/-- All events emitted while processing one chunk (text first, then tool
calls, as in the source loop body). -/
def chunkEvents (addr : Nat) (c : Chunk) : List StreamEvent :=
  chunkTextEvents c ++ chunkToolEvents addr c

/-- Events emitted by the `async for` loop over the chunks the provider
delivered; `addrs i` is the runtime identity of the i-th chunk's first
tool-call fragment object. -/
def streamBody (addrs : Nat → Nat) : Nat → List Chunk → List StreamEvent
  | _, [] => []
  | i, c :: cs => chunkEvents (addrs i) c ++ streamBody addrs (i + 1) cs

/-- What the external endpoint does for one `chat_completion` call: in
streaming mode it yields a (possibly empty) prefix of chunks and then
either ends normally or raises with a message (connection, timeout and
mid-stream decoding failures all surface as the raise); in non-streaming
mode it returns a full response content or raises. -/
inductive ProviderBehavior : Type where
  | streaming (chunks : List Chunk) (failure : Option String) : ProviderBehavior
  | nonStreaming (result : Except String String) : ProviderBehavior

/-- The event sequence produced by `LLMClient.chat_completion`
(client/llm_client.py): the messages are sanitized into the request; in
streaming mode each delivered chunk yields its events, then exactly one
MESSAGE_COMPLETE on normal exhaustion, while a raise anywhere inside the
`try` is caught by the single `except` and yields exactly one ERROR; in
non-streaming mode one TEXT_DELTA with the full content then one
MESSAGE_COMPLETE, with the same `except` path on a raise. -/
def chatCompletion (messages : List Message) (addrs : Nat → Nat)
    (pb : ProviderBehavior) : List StreamEvent :=
  let _request := sanitizeMessages messages
  match pb with
  | .streaming chunks failure =>
    match failure with
    | none => streamBody addrs 0 chunks ++ [.messageComplete none]
    | some e => streamBody addrs 0 chunks ++ [.error e]
  | .nonStreaming (.ok content) => [.textDelta content, .messageComplete none]
  | .nonStreaming (.error e) => [.error e]

/-- Definition following the spec's words (§4.2), for comparison with the
implemented `loadChunkArgs`: the chunk's arguments are parsed as JSON,
with the sanitizer's literal-syntax repair (§4.1) applied as a fallback
on parse failure, and only if parsing still fails is the raw string
passed through unmodified. -/
def specChunkArgs (arguments : Option String) : ToolArgs :=
  let defaulted : String :=
    match arguments with
    | some s => if s = "" then "{}" else s
    | none => "{}"
  match jsonLoads defaulted with
  | some v => .parsed v
  | none =>
    match sanitizeArgs (.str defaulted) with
    | .str repaired =>
      match jsonLoads repaired with
      | some v => .parsed v
      | none => .raw defaulted
    | _ => .raw defaulted

/-- Classification of a tool's effect (tools/base.py ToolKind). -/
inductive ToolKind : Type where
  | READ : ToolKind
  | WRITE : ToolKind
  | SHELL : ToolKind
  | NETWORK : ToolKind
  | MEMORY : ToolKind
  | MCP : ToolKind
deriving DecidableEq

/-- A tool-call parameter mapping. -/
abbrev Params := List (String × PyVal)

/-- One call site: params bound to a tool (tools/base.py ToolInvocation). -/
structure ToolInvocation where
  params : Params
  cwd : String

/-- A textual change to one file (tools/base.py FileDiff). -/
structure FileDiff where
  path : String
  old_content : String
  new_content : String
  is_new_file : Bool
  is_deletion : Bool

/-- A request for approval before a mutating action runs
(tools/base.py ToolConfirmation, with its dataclass defaults). -/
structure ToolConfirmation where
  tool_name : String
  params : Params
  description : String
  diff : Option FileDiff
  affected_paths : List String
  command : Option String
  is_dangerous : Bool

/-- The static declaration of a tool variant (tools/base.py Tool class
attributes). -/
structure Tool where
  name : String
  description : String
  kind : ToolKind

/-- Translation of `Tool.is_mutating` (tools/base.py): membership of `self.kind` in the
set {WRITE, SHELL, NETWORK, MEMORY}; `params` is ignored. -/
def Tool.is_mutating (t : Tool) (params : Params) : Bool :=
  decide (t.kind ∈ [ToolKind.WRITE, ToolKind.SHELL, ToolKind.NETWORK, ToolKind.MEMORY])

/-- Translation of `Tool.get_confirmation` (tools/base.py): nothing for a non-mutating
invocation, otherwise a ToolConfirmation with the tool's name, the
invocation's params, description `"Execute <name>"`, and the dataclass
defaults for the remaining fields. -/
def Tool.get_confirmation (t : Tool) (invocation : ToolInvocation) : Option ToolConfirmation :=
  if !(t.is_mutating invocation.params) then none
  else some ⟨t.name, invocation.params, "Execute " ++ t.name, none, [], none, false⟩

/-- Model of `str.splitlines(keepends=True)` restricted to `"\n"` terminators (the
only terminator this development's inputs contain); accumulator-based. -/
def splitAux : List Char → List Char → List String
  | [], [] => []
  | [], acc => [String.mk acc]
  | c :: cs, acc =>
    if c = '\n' then String.mk (acc ++ ['\n']) :: splitAux cs []
    else splitAux cs (acc ++ [c])

/-- Split into lines, keeping the line terminators. -/
def splitlinesKeepends (s : String) : List String := splitAux s.data []

/-- Model of `line.endswith("\n")`. -/
def endsWithNewline (s : String) : Bool := decide (s.data.getLast? = some '\n')

/-- The normalization step of `FileDiff.to_diff`: if the last line lacks a
trailing newline, append one. -/
def fixLastNewline (lines : List String) : List String :=
  match lines.getLast? with
  | none => lines
  | some last => if endsWithNewline last then lines else lines.dropLast ++ [last ++ "\n"]

/-- Model of `"".join(...)`. -/
def joinStr : List String → String
  | [] => ""
  | s :: rest => s ++ joinStr rest

/-- Model of `difflib.unified_diff` in the two aspects the claims rely on
(per its documented contract): it yields nothing when the two line
sequences are equal, and otherwise a `"--- <fromfile>"` / `"+++ <tofile>"`
header pair followed by hunk lines.  The hunk body (which no claim
inspects) is abstracted as all removed then all added lines. -/
def unifiedDiff (a b : List String) (fromfile tofile : String) : List String :=
  if a = b then []
  else ("--- " ++ fromfile ++ "\n") :: ("+++ " ++ tofile ++ "\n") ::
    (a.map (fun l => "-" ++ l) ++ b.map (fun l => "+" ++ l))

/-- The "old" file marker passed to the diff:
`"/dev/null" if self.is_new_file else str(self.path)`. -/
def FileDiff.fromName (fd : FileDiff) : String :=
  if fd.is_new_file then "/dev/null" else fd.path

/-- The "new" file marker passed to the diff:
`"/dev/null" if self.is_deletion else str(self.path)`. -/
def FileDiff.toName (fd : FileDiff) : String :=
  if fd.is_deletion then "/dev/null" else fd.path

/-- Translation of `FileDiff.to_diff` (tools/base.py): split both contents into lines
keeping the ends, normalize a missing final newline, and join the
unified-diff lines. -/
def FileDiff.to_diff (fd : FileDiff) : String :=
  let old_lines := fixLastNewline (splitlinesKeepends fd.old_content)
  let new_lines := fixLastNewline (splitlinesKeepends fd.new_content)
  joinStr (unifiedDiff old_lines new_lines fd.fromName fd.toName)

/-- Python exceptions relevant to the Scout tool model. -/
inductive PyExn : Type where
  | typeError (msg : String) : PyExn
  | attributeError (msg : String) : PyExn

/-- A constructed ToolResult object.  The dataclass does not check the
annotated types at runtime, so `success` holds whatever value was passed
(ScoutTool passes a string). -/
structure ToolResultObj where
  success : PyVal
  output : PyVal
  error : Option PyVal

/-- The keyword arguments supplied at one `ToolResult(...)` call site
(only the three fields ScoutTool ever passes). -/
structure ToolResultCall where
  success : Option PyVal
  output : Option PyVal
  error : Option PyVal

/-- The generated `__init__` of the ToolResult dataclass (tools/base.py):
`success` and `output` have no default, so a call that omits either
raises TypeError; `error` defaults to None.  Dataclasses never validate
the annotated types of the values that are passed. -/
def mkToolResult (kwargs : ToolResultCall) : Except PyExn ToolResultObj :=
  match kwargs.success, kwargs.output with
  | some s, some o => .ok ⟨s, o, kwargs.error⟩
  | _, _ => .error (.typeError "ToolResult missing required positional arguments")

/-- Translation of `ToolResult.error_result` (tools/base.py): the classmethod the spec
prescribes for execution failures; it passes all required fields. -/
def ToolResult.error_result (error : String) (output : String) : Except PyExn ToolResultObj :=
  mkToolResult ⟨some (.bool false), some (.str output), some (.str error)⟩

/-- The shapes of invocation object `ScoutTool.execute` distinguishes:
one with an `arguments` attribute, a plain dict, one with a `parameters`
attribute, or anything else (so `getattr(invocation, 'parameters', {})`
yields the empty default). -/
inductive ScoutInvocation : Type where
  | withArguments (arguments : List (String × PyVal)) : ScoutInvocation
  | asDict (entries : List (String × PyVal)) : ScoutInvocation
  | withParameters (parameters : List (String × PyVal)) : ScoutInvocation
  | plain : ScoutInvocation

/-- Model of `dict.get(key)`: the value under the key, if present. -/
def lookupKey : List (String × PyVal) → String → Option PyVal
  | [], _ => none
  | (k, v) :: rest, key => if k = key then some v else lookupKey rest key

/-- The query-extraction `try` block of `ScoutTool.execute`: `.get("query")`
on the appropriate mapping; calling `.get` on a non-dict `arguments`
value raises (caught by the surrounding `except`). -/
def extractQuery : ScoutInvocation → Except PyExn (Option PyVal)
  | .withArguments args => .ok (lookupKey args "query")
  | .asDict entries =>
    match lookupKey entries "arguments" with
    | some (.dict kvs) => .ok (lookupKey kvs "query")
    | some _ => .error (.attributeError "object has no attribute get")
    | none => .ok none
  | .withParameters ps => .ok (lookupKey ps "query")
  | .plain => .ok none

/-- Python truthiness of an optional value (`if not query:`). -/
def isFalsy : Option PyVal → Bool
  | none => true
  | some .null => true
  | some (.bool b) => !b
  | some (.int n) => decide (n = 0)
  | some (.str s) => decide (s = "")
  | some (.list xs) => xs.isEmpty
  | some (.dict kvs) => kvs.isEmpty

/-- Translation of `ScoutTool.execute` (tools/builtin/scout.py).  `ragAvailable` models
the RAG_AVAILABLE import flag, `collectionOk` the truthiness of
`self.collection`, and `search` the outcome of the vector-store query
(the built results text on success, the exception message on a raise).
An `Except.error` result means an exception escaped `execute`.  Every
`return ToolResult(...)` in the source omits the required `success` and
`output` fields (or just `output` on the success path), so the modelled
constructor raises exactly where CPython raises TypeError. -/
def scoutExecute (ragAvailable : Bool) (collectionOk : Bool)
    (search : Except String String) (invocation : ScoutInvocation) :
    Except PyExn ToolResultObj :=
  match extractQuery invocation with
  | .error _ => mkToolResult ⟨none, none, some (.str "Could not parse query arguments.")⟩
  | .ok query =>
    if isFalsy query then
      mkToolResult ⟨none, none, some (.str "No query provided.")⟩
    else if !ragAvailable || !collectionOk then
      mkToolResult ⟨none, none, some (.str "RAG Error: ChromaDB not available.")⟩
    else
      match search with
      | .ok output =>
        match mkToolResult ⟨some (.str output), none, none⟩ with
        | .ok r => .ok r
        | .error _ =>
          mkToolResult ⟨none, none, some (.str "Search failed: TypeError")⟩
      | .error e =>
        mkToolResult ⟨none, none, some (.str ("Search failed: " ++ e))⟩

/-- True iff the result is an escaping TypeError. -/
def isTypeError : Except PyExn ToolResultObj → Bool
  | .error (.typeError _) => true
  | _ => false

/-- Side condition for the number-parsing round trip: the remainder does
not begin with a digit (so the digit run of the dumped integer is
maximal). -/
def restOk (rest : List Char) : Prop :=
  ∀ c, rest.head? = some c → c.isDigit = false

theorem mkData_eq (s : String) : String.mk s.data = s := rfl

theorem restOk_nil : restOk [] := by
  intro c h
  exact absurd h (by simp)

theorem restOk_cons {c : Char} (h : c.isDigit = false) (rest : List Char) :
    restOk (c :: rest) := by
  intro d hd
  simp only [List.head?] at hd
  injection hd with hd
  exact hd ▸ h

theorem isDigit_ne_special {c : Char} (h : c.isDigit = true) :
    c ≠ 'n' ∧ c ≠ 't' ∧ c ≠ 'f' ∧ c ≠ '"' ∧ c ≠ '[' ∧ c ≠ '{' ∧ c ≠ '-' ∧
      c ≠ ']' ∧ c ≠ '}' ∧ c ≠ ',' := by
  refine ⟨?_, ?_, ?_, ?_, ?_, ?_, ?_, ?_, ?_, ?_⟩ <;>
    · rintro rfl
      revert h
      decide

theorem digitChar_isDigit {d : Nat} (h : d < 10) : (digitChar d).isDigit = true := by
  interval_cases d <;> decide

theorem digitVal_digitChar {d : Nat} (h : d < 10) : digitVal (digitChar d) = d := by
  interval_cases d <;> decide

theorem natCharsAux_digits (fuel : Nat) :
    ∀ (n : Nat), ∀ c ∈ natCharsAux fuel n, c.isDigit = true := by
  induction fuel with
  | zero => intro n c hc; simp [natCharsAux] at hc
  | succ f ih =>
    intro n c hc
    cases n with
    | zero => simp [natCharsAux] at hc
    | succ m =>
      simp only [natCharsAux, List.mem_append, List.mem_singleton] at hc
      rcases hc with hc | hc
      · exact ih _ c hc
      · subst hc
        exact digitChar_isDigit (Nat.mod_lt _ (by norm_num))

theorem natChars_digits (n : Nat) : ∀ c ∈ natChars n, c.isDigit = true := by
  intro c hc
  unfold natChars at hc
  split at hc
  · simp only [List.mem_singleton] at hc
    subst hc
    decide
  · exact natCharsAux_digits _ _ c hc

theorem natChars_ne_nil (n : Nat) : natChars n ≠ [] := by
  unfold natChars
  split
  · simp
  · rename_i hn
    cases n with
    | zero => exact absurd rfl hn
    | succ m => simp [natCharsAux]

theorem readDigits_append (ds : List Char) (h : ∀ c ∈ ds, c.isDigit = true)
    (rest : List Char) (acc : Nat) :
    readDigits (ds ++ rest) acc =
      readDigits rest (ds.foldl (fun a c => 10 * a + digitVal c) acc) := by
  induction ds generalizing acc with
  | nil => simp
  | cons c cs ih =>
    simp only [List.cons_append, readDigits, h c (List.mem_cons_self c cs), if_pos,
      List.foldl_cons]
    exact ih (fun d hd => h d (List.mem_cons_of_mem c hd)) _

theorem readDigits_restOk (rest : List Char) (h : restOk rest) (acc : Nat) :
    readDigits rest acc = (acc, rest) := by
  cases rest with
  | nil => rfl
  | cons c cs =>
    have hc := h c rfl
    simp [readDigits, hc]

theorem foldl_natCharsAux (fuel : Nat) :
    ∀ (n : Nat), n < fuel → ∀ acc,
      (natCharsAux fuel n).foldl (fun a c => 10 * a + digitVal c) acc =
        acc * 10 ^ (natCharsAux fuel n).length + n := by
  induction fuel with
  | zero => intro n hn; omega
  | succ f ih =>
    intro n hn acc
    cases n with
    | zero => simp [natCharsAux]
    | succ m =>
      have hd : (m + 1) / 10 < f :=
        lt_of_lt_of_le (Nat.div_lt_self (Nat.succ_pos m) (by norm_num))
          (Nat.lt_succ_iff.mp hn)
      simp only [natCharsAux, List.foldl_append, List.foldl_cons, List.foldl_nil,
        List.length_append, List.length_singleton]
      rw [ih _ hd acc, digitVal_digitChar (Nat.mod_lt _ (by norm_num)), pow_succ]
      have h2 : 10 * ((m + 1) / 10) + (m + 1) % 10 = m + 1 := Nat.div_add_mod (m + 1) 10
      calc 10 * (acc * 10 ^ (natCharsAux f ((m + 1) / 10)).length + (m + 1) / 10) + (m + 1) % 10
          = acc * (10 ^ (natCharsAux f ((m + 1) / 10)).length * 10) +
              (10 * ((m + 1) / 10) + (m + 1) % 10) := by ring
        _ = acc * (10 ^ (natCharsAux f ((m + 1) / 10)).length * 10) + (m + 1) := by rw [h2]

theorem foldl_natChars (n : Nat) :
    (natChars n).foldl (fun a c => 10 * a + digitVal c) 0 = n := by
  unfold natChars
  split
  · rename_i h
    subst h
    decide
  · rw [foldl_natCharsAux (n + 1) n (Nat.lt_succ_self n) 0]
    simp

theorem readDigits_natChars (n : Nat) (rest : List Char) (h : restOk rest) :
    readDigits (natChars n ++ rest) 0 = (n, rest) := by
  rw [readDigits_append _ (natChars_digits n), readDigits_restOk _ h, foldl_natChars]

theorem parseQuoted_cons (q c : Char) (cs : List Char) :
    parseQuoted q (c :: cs) =
      if c = '\\' then
        match cs with
        | [] => none
        | d :: cs2 => (parseQuoted q cs2).map fun p => (d :: p.1, p.2)
      else if c = q then some ([], cs)
      else (parseQuoted q cs).map fun p => (c :: p.1, p.2) := by
  conv_lhs => unfold parseQuoted

theorem parseQuoted_escChars (l rest : List Char) :
    parseQuoted '"' (escChars l ++ '"' :: rest) = some (l, rest) := by
  induction l with
  | nil =>
    simp only [escChars, List.nil_append]
    rw [parseQuoted_cons]
    simp
  | cons c cs ih =>
    by_cases hc : c = '"' ∨ c = '\\'
    · have h1 : escChars (c :: cs) = '\\' :: c :: escChars cs := by
        simp [escChars, hc]
      rw [h1, List.cons_append, List.cons_append, parseQuoted_cons]
      simp [ih]
    · push_neg at hc
      have h1 : escChars (c :: cs) = c :: escChars cs := by
        simp [escChars, hc.1, hc.2]
      rw [h1, List.cons_append, parseQuoted_cons, if_neg hc.2, if_neg hc.1, ih]
      rfl

theorem dumpVal_shape (v : PyVal) :
    ∃ c cs, dumpVal v = c :: cs ∧ c ≠ ']' ∧ c ≠ '}' := by
  cases v with
  | null => exact ⟨'n', _, rfl, by decide, by decide⟩
  | bool b =>
    cases b with
    | false => exact ⟨'f', _, rfl, by decide, by decide⟩
    | true => exact ⟨'t', _, rfl, by decide, by decide⟩
  | int n =>
    have h : dumpVal (.int n) = intChars n := rfl
    rw [h]
    unfold intChars
    split
    · exact ⟨'-', _, rfl, by decide, by decide⟩
    · obtain ⟨c, cs, hne⟩ := List.exists_cons_of_ne_nil (natChars_ne_nil n.toNat)
      have hd : c.isDigit = true := natChars_digits n.toNat c (by rw [hne]; simp)
      obtain ⟨-, -, -, -, -, -, -, h8, h9, -⟩ := isDigit_ne_special hd
      exact ⟨c, cs, hne, h8, h9⟩
  | str s => exact ⟨'"', _, rfl, by decide, by decide⟩
  | list xs => exact ⟨'[', _, rfl, by decide, by decide⟩
  | dict kvs => exact ⟨'{', _, rfl, by decide, by decide⟩

theorem dumpVal_length_pos (v : PyVal) : 1 ≤ (dumpVal v).length := by
  obtain ⟨c, cs, h, -, -⟩ := dumpVal_shape v
  rw [h]
  simp

theorem natCharsAux_shape (fuel : Nat) :
    ∀ n, natCharsAux fuel n = [] ∨
      ∃ d cs, d < 10 ∧ natCharsAux fuel n = digitChar d :: cs := by
  induction fuel with
  | zero => intro n; exact Or.inl rfl
  | succ f ih =>
    intro n
    cases n with
    | zero => exact Or.inl rfl
    | succ m =>
      have he : natCharsAux (f + 1) (m + 1) =
          natCharsAux f ((m + 1) / 10) ++ [digitChar ((m + 1) % 10)] := rfl
      rcases ih ((m + 1) / 10) with h | ⟨d, cs, hd, h⟩
      · exact Or.inr ⟨(m + 1) % 10, [], Nat.mod_lt _ (by norm_num), by rw [he, h]; rfl⟩
      · exact Or.inr ⟨d, cs ++ [digitChar ((m + 1) % 10)], hd, by rw [he, h]; rfl⟩

theorem natChars_shape (n : Nat) :
    ∃ d cs, d < 10 ∧ natChars n = digitChar d :: cs := by
  unfold natChars
  split
  · exact ⟨0, [], by norm_num, by decide⟩
  · rename_i h
    rcases natCharsAux_shape (n + 1) n with he | ⟨d, cs, hd, he⟩
    · exfalso
      have hne := natChars_ne_nil n
      unfold natChars at hne
      rw [if_neg h] at hne
      exact hne he
    · exact ⟨d, cs, hd, he⟩

theorem parseVal_null (fuel : Nat) (rest : List Char) :
    parseVal (fuel + 1) ('n' :: 'u' :: 'l' :: 'l' :: rest) = some (.null, rest) := rfl

theorem parseVal_true (fuel : Nat) (rest : List Char) :
    parseVal (fuel + 1) ('t' :: 'r' :: 'u' :: 'e' :: rest) = some (.bool true, rest) := rfl

theorem parseVal_false (fuel : Nat) (rest : List Char) :
    parseVal (fuel + 1) ('f' :: 'a' :: 'l' :: 's' :: 'e' :: rest) =
      some (.bool false, rest) := rfl

theorem parseVal_str (fuel : Nat) (cs : List Char) :
    parseVal (fuel + 1) ('"' :: cs) =
      (parseQuoted '"' cs).map fun p => (.str (String.mk p.1), p.2) := rfl

theorem parseVal_listE (fuel : Nat) (cs : List Char) :
    parseVal (fuel + 1) ('[' :: cs) =
      if cs.head? = some ']' then some (.list [], cs.tail)
      else (parseElems fuel cs).map fun p => (.list p.1, p.2) := rfl

theorem parseVal_dictE (fuel : Nat) (cs : List Char) :
    parseVal (fuel + 1) ('{' :: cs) =
      if cs.head? = some '}' then some (.dict [], cs.tail)
      else (parseMembers fuel cs).map fun p => (.dict p.1, p.2) := rfl

theorem parseVal_dash (fuel : Nat) (d : Char) (tail : List Char) :
    parseVal (fuel + 1) ('-' :: d :: tail) =
      if d.isDigit then
        some (.int (-(((readDigits (d :: tail) 0).1 : Nat) : Int)),
          (readDigits (d :: tail) 0).2)
      else none := rfl

theorem parseVal_digitChar (fuel : Nat) (d : Nat) (hd : d < 10) (cs : List Char) :
    parseVal (fuel + 1) (digitChar d :: cs) =
      some (.int (((readDigits (digitChar d :: cs) 0).1 : Nat) : Int),
        (readDigits (digitChar d :: cs) 0).2) := by
  interval_cases d <;> rfl

theorem parseElems_step (fuel : Nat) (cs : List Char) :
    parseElems (fuel + 1) cs =
      match parseVal fuel cs with
      | none => none
      | some (v, cs1) =>
        if cs1.head? = some ',' then
          match parseElems fuel cs1.tail with
          | none => none
          | some (vs, cs2) => some (v :: vs, cs2)
        else if cs1.head? = some ']' then some ([v], cs1.tail)
        else none := rfl

theorem parseMembers_step (fuel : Nat) (cs : List Char) :
    parseMembers (fuel + 1) cs =
      if cs.head? = some '"' then
        match parseQuoted '"' cs.tail with
        | none => none
        | some (k, cs1) =>
          if cs1.head? = some ':' then
            match parseVal fuel cs1.tail with
            | none => none
            | some (v, cs2) =>
              if cs2.head? = some ',' then
                match parseMembers fuel cs2.tail with
                | none => none
                | some (ms, cs3) => some ((String.mk k, v) :: ms, cs3)
              else if cs2.head? = some '}' then some ([(String.mk k, v)], cs2.tail)
              else none
          else none
      else none := rfl

theorem dumpElems_shape (x : PyVal) (xs : List PyVal) :
    ∃ c t, dumpElems (x :: xs) = c :: t ∧ c ≠ ']' ∧ c ≠ '}' := by
  obtain ⟨c, cs, h, h1, h2⟩ := dumpVal_shape x
  cases xs with
  | nil => exact ⟨c, cs, by rw [show dumpElems [x] = dumpVal x from rfl, h], h1, h2⟩
  | cons y ys =>
    refine ⟨c, cs ++ ',' :: dumpElems (y :: ys), ?_, h1, h2⟩
    rw [show dumpElems (x :: y :: ys) = dumpVal x ++ ',' :: dumpElems (y :: ys) from rfl, h]
    rfl

theorem dumpMembers_shape (k : String) (v : PyVal) (ms : List (String × PyVal)) :
    ∃ t, dumpMembers ((k, v) :: ms) = '"' :: t := by
  cases ms with
  | nil => exact ⟨_, rfl⟩
  | cons m ms' => exact ⟨_, rfl⟩

theorem parse_dump_all (fuel : Nat) :
    (∀ v rest, (dumpVal v).length < fuel → restOk rest →
      parseVal fuel (dumpVal v ++ rest) = some (v, rest)) ∧
    (∀ xs rest, xs ≠ [] → (dumpElems xs).length + 2 ≤ fuel → restOk rest →
      parseElems fuel (dumpElems xs ++ ']' :: rest) = some (xs, rest)) ∧
    (∀ ms rest, ms ≠ [] → (dumpMembers ms).length + 2 ≤ fuel → restOk rest →
      parseMembers fuel (dumpMembers ms ++ '}' :: rest) = some (ms, rest)) := by
  induction fuel using Nat.strong_induction_on with
  | _ fuel IH =>
  cases fuel with
  | zero =>
    exact ⟨fun v rest h _ => absurd h (by omega),
      fun xs rest _ h _ => absurd h (by omega),
      fun ms rest _ h _ => absurd h (by omega)⟩
  | succ f =>
    have IHv := (IH f (Nat.lt_succ_self f)).1
    have IHe := (IH f (Nat.lt_succ_self f)).2.1
    have IHm := (IH f (Nat.lt_succ_self f)).2.2
    refine ⟨?_, ?_, ?_⟩
    · intro v rest hlen hrest
      cases v with
      | null => exact parseVal_null f rest
      | bool b =>
        cases b with
        | true => exact parseVal_true f rest
        | false => exact parseVal_false f rest
      | int n =>
        by_cases hn : n < 0
        · have hi : dumpVal (PyVal.int n) = '-' :: natChars n.natAbs := by
            show intChars n = _
            unfold intChars
            rw [if_pos hn]
          obtain ⟨d, cs, hd10, hshape⟩ := natChars_shape n.natAbs
          rw [hi, hshape, List.cons_append, List.cons_append,
            parseVal_dash, if_pos (digitChar_isDigit hd10),
            show digitChar d :: (cs ++ rest) = (digitChar d :: cs) ++ rest from rfl,
            ← hshape, readDigits_natChars _ _ hrest]
          have hval : -((n.natAbs : Nat) : Int) = n := by omega
          rw [hval]
        · have hi : dumpVal (PyVal.int n) = natChars n.toNat := by
            show intChars n = _
            unfold intChars
            rw [if_neg hn]
          obtain ⟨d, cs, hd10, hshape⟩ := natChars_shape n.toNat
          rw [hi, hshape, List.cons_append, parseVal_digitChar f d hd10,
            show digitChar d :: (cs ++ rest) = (digitChar d :: cs) ++ rest from rfl,
            ← hshape, readDigits_natChars _ _ hrest]
          have hval : ((n.toNat : Nat) : Int) = n := by omega
          rw [hval]
      | str s =>
        have hd : dumpVal (PyVal.str s) ++ rest = '"' :: (escChars s.data ++ ('"' :: rest)) := by
          show ('"' :: (escChars s.data ++ ['"'])) ++ rest = _
          simp
        rw [hd, parseVal_str, parseQuoted_escChars]
        rfl
      | list xs =>
        cases xs with
        | nil =>
          show parseVal (f + 1) ('[' :: ']' :: rest) = some (.list [], rest)
          rw [parseVal_listE]
          rfl
        | cons x xs' =>
          obtain ⟨c, t, he, hc1, hc2⟩ := dumpElems_shape x xs'
          have hd : dumpVal (PyVal.list (x :: xs')) ++ rest =
              '[' :: (dumpElems (x :: xs') ++ ']' :: rest) := by
            show ('[' :: (dumpElems (x :: xs') ++ [']'])) ++ rest = _
            simp
          rw [hd, parseVal_listE]
          have hcond : (dumpElems (x :: xs') ++ ']' :: rest).head? ≠ some ']' := by
            rw [he]
            simp [hc1]
          rw [if_neg hcond]
          have hlen2 : (dumpElems (x :: xs')).length + 2 ≤ f := by
            have hl : (dumpVal (PyVal.list (x :: xs'))).length =
                (dumpElems (x :: xs')).length + 2 := by
              show ('[' :: (dumpElems (x :: xs') ++ [']'])).length = _
              simp
            omega
          rw [IHe (x :: xs') rest (by simp) hlen2 hrest]
          rfl
      | dict kvs =>
        cases kvs with
        | nil =>
          show parseVal (f + 1) ('{' :: '}' :: rest) = some (.dict [], rest)
          rw [parseVal_dictE]
          rfl
        | cons kv ms' =>
          obtain ⟨k, v⟩ := kv
          obtain ⟨t, he⟩ := dumpMembers_shape k v ms'
          have hd : dumpVal (PyVal.dict ((k, v) :: ms')) ++ rest =
              '{' :: (dumpMembers ((k, v) :: ms') ++ '}' :: rest) := by
            show ('{' :: (dumpMembers ((k, v) :: ms') ++ ['}'])) ++ rest = _
            simp
          rw [hd, parseVal_dictE]
          have hcond : (dumpMembers ((k, v) :: ms') ++ '}' :: rest).head? ≠ some '}' := by
            rw [he]
            simp
          rw [if_neg hcond]
          have hlen2 : (dumpMembers ((k, v) :: ms')).length + 2 ≤ f := by
            have hl : (dumpVal (PyVal.dict ((k, v) :: ms'))).length =
                (dumpMembers ((k, v) :: ms')).length + 2 := by
              show ('{' :: (dumpMembers ((k, v) :: ms') ++ ['}'])).length = _
              simp
            omega
          rw [IHm ((k, v) :: ms') rest (by simp) hlen2 hrest]
          rfl
    · intro xs rest hne hlen hrest
      cases xs with
      | nil => exact absurd rfl hne
      | cons x xs' =>
        cases xs' with
        | nil =>
          have hd : dumpElems [x] ++ ']' :: rest = dumpVal x ++ (']' :: rest) := rfl
          have hlenx : (dumpVal x).length < f := by
            have hle : dumpElems [x] = dumpVal x := rfl
            rw [hle] at hlen
            omega
          rw [hd, parseElems_step, IHv x (']' :: rest) hlenx (restOk_cons (by decide) rest)]
          simp
        | cons y ys =>
          have hd : dumpElems (x :: y :: ys) ++ ']' :: rest =
              dumpVal x ++ (',' :: (dumpElems (y :: ys) ++ ']' :: rest)) := by
            show (dumpVal x ++ ',' :: dumpElems (y :: ys)) ++ ']' :: rest = _
            simp
          have hll : (dumpElems (x :: y :: ys)).length =
              (dumpVal x).length + 1 + (dumpElems (y :: ys)).length := by
            show (dumpVal x ++ ',' :: dumpElems (y :: ys)).length = _
            simp
            omega
          have hx1 := dumpVal_length_pos x
          rw [hd, parseElems_step,
            IHv x _ (by omega) (restOk_cons (by decide) _)]
          simp [IHe (y :: ys) rest (by simp) (by omega) hrest]
    · intro ms rest hne hlen hrest
      cases ms with
      | nil => exact absurd rfl hne
      | cons kv ms' =>
        obtain ⟨k, v⟩ := kv
        cases ms' with
        | nil =>
          have hd : dumpMembers [(k, v)] ++ '}' :: rest =
              '"' :: (escChars k.data ++ ('"' :: (':' :: (dumpVal v ++ '}' :: rest)))) := by
            show ('"' :: (escChars k.data ++ '"' :: ':' :: dumpVal v)) ++ '}' :: rest = _
            simp
          have hlv : (dumpVal v).length < f := by
            have hlm : (dumpMembers [(k, v)]).length =
                (escChars k.data).length + (dumpVal v).length + 3 := by
              show ('"' :: (escChars k.data ++ '"' :: ':' :: dumpVal v)).length = _
              simp
              omega
            omega
          rw [hd, parseMembers_step]
          simp only [List.head?_cons, List.tail_cons, if_pos]
          rw [parseQuoted_escChars]
          simp only [List.head?_cons, List.tail_cons]
          rw [IHv v ('}' :: rest) hlv (restOk_cons (by decide) rest)]
          simp
        | cons kv2 ms2 =>
          have hd : dumpMembers ((k, v) :: kv2 :: ms2) ++ '}' :: rest =
              '"' :: (escChars k.data ++ ('"' :: (':' ::
                (dumpVal v ++ (',' :: (dumpMembers (kv2 :: ms2) ++ '}' :: rest)))))) := by
            show (('"' :: (escChars k.data ++ '"' :: ':' :: dumpVal v)) ++
              ',' :: dumpMembers (kv2 :: ms2)) ++ '}' :: rest = _
            simp
          have hlm : (dumpMembers ((k, v) :: kv2 :: ms2)).length =
              (escChars k.data).length + (dumpVal v).length + 4 +
                (dumpMembers (kv2 :: ms2)).length := by
            show (('"' :: (escChars k.data ++ '"' :: ':' :: dumpVal v)) ++
              ',' :: dumpMembers (kv2 :: ms2)).length = _
            simp
            omega
          have hv1 := dumpVal_length_pos v
          rw [hd, parseMembers_step]
          simp only [List.head?_cons, List.tail_cons, if_pos]
          rw [parseQuoted_escChars]
          simp only [List.head?_cons, List.tail_cons]
          rw [IHv v _ (by omega) (restOk_cons (by decide) _)]
          simp [IHm (kv2 :: ms2) rest (by simp) (by omega) hrest]

theorem jsonLoads_dumps (v : PyVal) : jsonLoads (jsonDumps v) = some v := by
  unfold jsonLoads jsonDumps
  have hlen : (String.mk (dumpVal v)).length = (dumpVal v).length := rfl
  have hdata : (String.mk (dumpVal v)).data = dumpVal v := rfl
  rw [hlen, hdata]
  have h := (parse_dump_all (2 * (dumpVal v).length + 2)).1 v []
    (by have := dumpVal_length_pos v; omega) restOk_nil
  rw [List.append_nil] at h
  rw [h]

theorem chunkTextEvents_mem {c : Chunk} {e : StreamEvent} (he : e ∈ chunkTextEvents c) :
    ∃ s, e = .textDelta s ∧ s ≠ "" := by
  unfold chunkTextEvents at he
  split at he
  · simp at he
  · split at he
    · simp at he
    · split at he
      · simp at he
      · simp only [List.mem_singleton] at he
        exact ⟨_, he, by assumption⟩

theorem chunkToolEvents_mem {addr : Nat} {c : Chunk} {e : StreamEvent}
    (he : e ∈ chunkToolEvents addr c) :
    ∃ choice tc nm, c.choices.head? = some choice ∧
      choice.delta.tool_calls.head? = some tc ∧ tc.function.name = some nm ∧ nm ≠ "" ∧
      e = .toolCallComplete ⟨chunkCallId tc.id addr, nm, loadChunkArgs tc.function.arguments⟩ := by
  unfold chunkToolEvents at he
  split at he
  · simp at he
  · split at he
    · simp at he
    · split at he
      · simp at he
      · split at he
        · simp at he
        · simp only [List.mem_singleton] at he
          rename_i x2 ch hch x1 tcf htc x0 nm hnm hne
          exact ⟨ch, tcf, nm, hch, htc, hnm, hne, he⟩

theorem chunkEvents_not_terminal {addr : Nat} {c : Chunk} {e : StreamEvent}
    (he : e ∈ chunkEvents addr c) : e.isTerminal = false := by
  rcases List.mem_append.mp he with h | h
  · obtain ⟨s, rfl, -⟩ := chunkTextEvents_mem h
    rfl
  · obtain ⟨_, _, _, -, -, -, -, rfl⟩ := chunkToolEvents_mem h
    rfl

theorem streamBody_mem {addrs : Nat → Nat} {e : StreamEvent} :
    ∀ {i : Nat} {chunks : List Chunk}, e ∈ streamBody addrs i chunks →
      ∃ c, c ∈ chunks ∧ ∃ a, e ∈ chunkEvents a c := by
  intro i chunks
  induction chunks generalizing i with
  | nil => intro h; simp [streamBody] at h
  | cons c cs ih =>
    intro h
    have hs : streamBody addrs i (c :: cs) =
        chunkEvents (addrs i) c ++ streamBody addrs (i + 1) cs := rfl
    rw [hs] at h
    rcases List.mem_append.mp h with h | h
    · exact ⟨c, List.mem_cons_self c cs, addrs i, h⟩
    · obtain ⟨c', hc', a, ha⟩ := ih h
      exact ⟨c', List.mem_cons_of_mem c hc', a, ha⟩

theorem streamBody_filter_terminal (addrs : Nat → Nat) (i : Nat) (chunks : List Chunk) :
    (streamBody addrs i chunks).filter (fun e => e.isTerminal) = [] := by
  rw [List.filter_eq_nil]
  intro e he
  obtain ⟨c, -, a, ha⟩ := streamBody_mem he
  simp [chunkEvents_not_terminal ha]

/-- C3: every chat_completion call emits exactly one terminating event
(MESSAGE_COMPLETE or ERROR), it is the last event of the sequence, and a
provider failure (transport, timeout or decoding raise, in either mode)
is converted into that single ERROR event carrying the failure message
rather than re-raised (the event function is total). -/
theorem C3_exactly_one_terminal (messages : List Message) (addrs : Nat → Nat)
    (pb : ProviderBehavior) :
    ((chatCompletion messages addrs pb).filter (fun e => e.isTerminal)).length = 1 ∧
    ((chatCompletion messages addrs pb).getLast?).map (fun e => e.isTerminal) = some true ∧
    (∀ chunks err, (chatCompletion messages addrs
      (.streaming chunks (some err))).getLast? = some (.error err)) ∧
    (∀ err, chatCompletion messages addrs (.nonStreaming (.error err)) = [.error err]) := by
  refine ⟨?_, ?_, ?_, fun err => rfl⟩
  · cases pb with
    | streaming chunks failure =>
      cases failure with
      | none =>
        have h : chatCompletion messages addrs (.streaming chunks none) =
            streamBody addrs 0 chunks ++ [.messageComplete none] := rfl
        rw [h, List.filter_append, streamBody_filter_terminal]
        rfl
      | some err =>
        have h : chatCompletion messages addrs (.streaming chunks (some err)) =
            streamBody addrs 0 chunks ++ [.error err] := rfl
        rw [h, List.filter_append, streamBody_filter_terminal]
        rfl
    | nonStreaming result =>
      cases result with
      | ok content => rfl
      | error err => rfl
  · cases pb with
    | streaming chunks failure =>
      cases failure with
      | none =>
        have h : chatCompletion messages addrs (.streaming chunks none) =
            streamBody addrs 0 chunks ++ [.messageComplete none] := rfl
        rw [h, List.getLast?_concat]
        rfl
      | some err =>
        have h : chatCompletion messages addrs (.streaming chunks (some err)) =
            streamBody addrs 0 chunks ++ [.error err] := rfl
        rw [h, List.getLast?_concat]
        rfl
    | nonStreaming result =>
      cases result with
      | ok content => rfl
      | error err => rfl
  · intro chunks err
    have h : chatCompletion messages addrs (.streaming chunks (some err)) =
        streamBody addrs 0 chunks ++ [.error err] := rfl
    rw [h, List.getLast?_concat]

theorem textDelta_mem_chunkEvents {addr : Nat} {c : Chunk} {s : String}
    (h : StreamEvent.textDelta s ∈ chunkEvents addr c) : s ≠ "" := by
  rcases List.mem_append.mp h with h | h
  · obtain ⟨s', he, hne⟩ := chunkTextEvents_mem h
    injection he with h2
    subst h2
    exact hne
  · obtain ⟨ch, tcf, nm2, -, -, -, -, he⟩ := chunkToolEvents_mem h
    exact absurd he (by simp)

/-- C9 counterexample: non-streaming mode emits a TEXT_DELTA with empty content. -/
theorem C9_counterexample :
    chatCompletion [] (fun _ => 0) (.nonStreaming (.ok "")) =
      [.textDelta "", .messageComplete none] ∧
    StreamEvent.textDelta "" ∈ chatCompletion [] (fun _ => 0) (.nonStreaming (.ok "")) := by
  refine ⟨rfl, ?_⟩
  have h : chatCompletion [] (fun _ => 0) (.nonStreaming (.ok "")) =
      [.textDelta "", .messageComplete none] := rfl
  rw [h]
  exact List.mem_cons_self _ _

/-- C9 amended: streaming TEXT_DELTA events always carry non-empty content;
non-streaming mode emits the full message content as one TEXT_DELTA even
when it is empty. -/
theorem C9_amended (messages : List Message) (addrs : Nat → Nat) :
    (∀ chunks failure s, StreamEvent.textDelta s ∈
        chatCompletion messages addrs (.streaming chunks failure) → s ≠ "") ∧
    (∀ content, chatCompletion messages addrs (.nonStreaming (.ok content)) =
      [.textDelta content, .messageComplete none]) := by
  constructor
  · intro chunks failure s hs
    cases failure with
    | none =>
      have h : chatCompletion messages addrs (.streaming chunks none) =
          streamBody addrs 0 chunks ++ [.messageComplete none] := rfl
      rw [h] at hs
      rcases List.mem_append.mp hs with h2 | h2
      · obtain ⟨c, -, a, ha⟩ := streamBody_mem h2
        exact textDelta_mem_chunkEvents ha
      · simp at h2
    | some err =>
      have h : chatCompletion messages addrs (.streaming chunks (some err)) =
          streamBody addrs 0 chunks ++ [.error err] := rfl
      rw [h] at hs
      rcases List.mem_append.mp hs with h2 | h2
      · obtain ⟨c, -, a, ha⟩ := streamBody_mem h2
        exact textDelta_mem_chunkEvents ha
      · simp at h2
  · intro content
    rfl

theorem C9_witness : ("hi" : String) ≠ "" := by
  refine (C9_amended [] (fun _ => 0)).1 [⟨[⟨⟨some "hi", []⟩⟩]⟩] none "hi" ?_
  have h : chatCompletion [] (fun _ => 0) (.streaming [⟨[⟨⟨some "hi", []⟩⟩]⟩] none) =
      [.textDelta "hi", .messageComplete none] := rfl
  rw [h]
  exact List.mem_cons_self _ _

/-- C10: a tool-call fragment with a missing or empty function name emits
nothing and its arguments are discarded; every TOOL_CALL_COMPLETE event
gets its arguments from the single named fragment of one chunk. -/
theorem C10_nameless_fragments (addrs : Nat → Nat) :
    (∀ (addr : Nat) (c : Chunk) (choice : Choice) (tc : ToolCallFragment),
      c.choices.head? = some choice →
      choice.delta.tool_calls.head? = some tc →
      (tc.function.name = none ∨ tc.function.name = some "") →
      chunkToolEvents addr c = []) ∧
    (∀ (i : Nat) (chunks : List Chunk) (tcall : ToolCall),
      StreamEvent.toolCallComplete tcall ∈ streamBody addrs i chunks →
      ∃ c, c ∈ chunks ∧ ∃ a choice tc nm, c.choices.head? = some choice ∧
        choice.delta.tool_calls.head? = some tc ∧ tc.function.name = some nm ∧ nm ≠ "" ∧
        tcall = ⟨chunkCallId tc.id a, nm, loadChunkArgs tc.function.arguments⟩) := by
  constructor
  · intro addr c choice tc hch htc hnm
    rcases hnm with h | h <;> simp [chunkToolEvents, hch, htc, h]
  · intro i chunks tcall hmem
    obtain ⟨c, hc, a, he⟩ := streamBody_mem hmem
    rcases List.mem_append.mp he with h | h
    · obtain ⟨s, he2, -⟩ := chunkTextEvents_mem h
      exact absurd he2 (by simp)
    · obtain ⟨choice, tc, nm, hch, htc, hnm, hne, he2⟩ := chunkToolEvents_mem h
      injection he2 with h3
      exact ⟨c, hc, a, choice, tc, nm, hch, htc, hnm, hne, h3⟩

theorem C10_witness :
    chunkToolEvents 0 ⟨[⟨⟨none, [⟨none, ⟨some "", some "\x7b\"x\":1\x7d"⟩⟩]⟩⟩]⟩ = [] :=
  (C10_nameless_fragments (fun _ => 0)).1 0 _ _ _ rfl rfl (Or.inr rfl)

/-- C4 counterexample: two runs over the same chunk (one tool call with a
missing id) with different runtime object identities synthesize different
call ids. -/
theorem C4_counterexample :
    chatCompletion [] (fun _ => 1)
        (.streaming [⟨[⟨⟨none, [⟨none, ⟨some "f", none⟩⟩]⟩⟩]⟩] none) =
      [.toolCallComplete ⟨"call_1", "f", .parsed (.dict [])⟩, .messageComplete none] ∧
    chatCompletion [] (fun _ => 2)
        (.streaming [⟨[⟨⟨none, [⟨none, ⟨some "f", none⟩⟩]⟩⟩]⟩] none) =
      [.toolCallComplete ⟨"call_2", "f", .parsed (.dict [])⟩, .messageComplete none] ∧
    ("call_1" : String) ≠ "call_2" := by
  refine ⟨rfl, rfl, by decide⟩

/-- C4 amended: a missing or empty provider id is replaced by
`"call_" ++ <runtime object identity of the fragment>`, so the id is only
as reproducible as the runtime identity. -/
theorem C4_amended (addr : Nat) (c : Chunk) (choice : Choice) (tc : ToolCallFragment)
    (nm : String) (hch : c.choices.head? = some choice)
    (htc : choice.delta.tool_calls.head? = some tc)
    (hnm : tc.function.name = some nm) (hne : nm ≠ "")
    (hid : tc.id = none ∨ tc.id = some "") :
    chunkToolEvents addr c =
      [.toolCallComplete ⟨"call_" ++ toString addr, nm, loadChunkArgs tc.function.arguments⟩] := by
  rcases hid with h | h <;>
    simp [chunkToolEvents, hch, htc, hnm, hne, chunkCallId, h, synthCallId]

theorem C4_witness :
    chunkToolEvents 5 ⟨[⟨⟨none, [⟨none, ⟨some "f", none⟩⟩]⟩⟩]⟩ =
      [.toolCallComplete ⟨"call_5", "f", .parsed (.dict [])⟩] :=
  C4_amended 5 ⟨[⟨⟨none, [⟨none, ⟨some "f", none⟩⟩]⟩⟩]⟩ ⟨⟨none, [⟨none, ⟨some "f", none⟩⟩]⟩⟩
    ⟨none, ⟨some "f", none⟩⟩ "f" rfl rfl rfl (by decide) (Or.inl rfl)

/-- C1 counterexample: for the chunk arguments string `"{'a': 1}"` the
implementation emits the raw string, while the spec's
parse-with-sanitizer-fallback procedure yields the parsed mapping. -/
theorem C1_counterexample :
    chunkEvents 7 ⟨[⟨⟨none, [⟨some "id9", ⟨some "f", some "\x7b'a': 1\x7d"⟩⟩]⟩⟩]⟩ =
      [.toolCallComplete ⟨"id9", "f", .raw "\x7b'a': 1\x7d"⟩] ∧
    specChunkArgs (some "\x7b'a': 1\x7d") = .parsed (.dict [("a", .int 1)]) ∧
    ToolArgs.raw "\x7b'a': 1\x7d" ≠ specChunkArgs (some "\x7b'a': 1\x7d") := by
  refine ⟨rfl, rfl, ?_⟩
  have h : specChunkArgs (some "\x7b'a': 1\x7d") = .parsed (.dict [("a", .int 1)]) := rfl
  rw [h]
  simp

/-- C1 amended: incoming chunk arguments are parsed as JSON (after
defaulting an absent or empty string to `"{}"`); on parse failure the raw
string is passed through unmodified, with no literal-syntax repair. -/
theorem C1_amended (addr : Nat) (c : Chunk) (choice : Choice) (tc : ToolCallFragment)
    (nm : String) (hch : c.choices.head? = some choice)
    (htc : choice.delta.tool_calls.head? = some tc)
    (hnm : tc.function.name = some nm) (hne : nm ≠ "") :
    chunkToolEvents addr c =
      [.toolCallComplete ⟨chunkCallId tc.id addr, nm, loadChunkArgs tc.function.arguments⟩] ∧
    (∀ s v, tc.function.arguments = some s →
      jsonLoads (if s = "" then "{}" else s) = some v →
      loadChunkArgs tc.function.arguments = .parsed v) ∧
    (∀ s, tc.function.arguments = some s →
      jsonLoads (if s = "" then "{}" else s) = none →
      loadChunkArgs tc.function.arguments = .raw s) := by
  refine ⟨?_, ?_, ?_⟩
  · simp [chunkToolEvents, hch, htc, hnm, hne]
  · intro s v hs hv
    simp [loadChunkArgs, hs, hv]
  · intro s hs hv
    simp [loadChunkArgs, hs, hv]

theorem C1_witness : loadChunkArgs (some "broken\x7b") = .raw "broken\x7b" :=
  (C1_amended 0 ⟨[⟨⟨none, [⟨none, ⟨some "f", some "broken\x7b"⟩⟩]⟩⟩]⟩
    ⟨⟨none, [⟨none, ⟨some "f", some "broken\x7b"⟩⟩]⟩⟩ ⟨none, ⟨some "f", some "broken\x7b"⟩⟩ "f"
    rfl rfl rfl (by decide)).2.2 "broken\x7b" rfl (by rfl)

/-- C5 counterexample: `"{1, 2}"` is not valid JSON but is a valid Python
literal (a set); the sanitizer leaves it unchanged (json.dumps of a set
raises, caught by the bare except) instead of replacing it with JSON. -/
theorem C5_counterexample :
    jsonLoads "{1, 2}" = none ∧
    literalEval "{1, 2}" = some (.set [.int 1, .int 2]) ∧
    sanitizeArgs (.str "{1, 2}") = .str "{1, 2}" := by
  refine ⟨rfl, rfl, rfl⟩

/-- C5 amended: a valid-JSON string is unchanged; a non-JSON string that is
a valid literal with JSON-serializable content is replaced by a JSON
string decoding to the equivalent structure; if literal evaluation or
JSON serialization fails, the string is unchanged; sanitization is a
total function (never throws). -/
theorem C5_string_sanitize (s : String) :
    (∀ v, jsonLoads s = some v → sanitizeArgs (.str s) = .str s) ∧
    (jsonLoads s = none → ∀ lv jv, literalEval s = some lv → litToJson lv = some jv →
      sanitizeArgs (.str s) = .str (jsonDumps jv) ∧ jsonLoads (jsonDumps jv) = some jv) ∧
    (jsonLoads s = none → literalEval s = none → sanitizeArgs (.str s) = .str s) ∧
    (jsonLoads s = none → ∀ lv, literalEval s = some lv → litToJson lv = none →
      sanitizeArgs (.str s) = .str s) := by
  refine ⟨?_, ?_, ?_, ?_⟩
  · intro v hv
    simp [sanitizeArgs, hv]
  · intro hj lv jv hlv hjv
    refine ⟨?_, jsonLoads_dumps jv⟩
    simp [sanitizeArgs, hj, hlv, litDumps, hjv]
  · intro hj hlv
    simp [sanitizeArgs, hj, hlv]
  · intro hj lv hlv hjv
    simp [sanitizeArgs, hj, hlv, litDumps, hjv]

theorem C5_witness :
    sanitizeArgs (.str "\x7b'a': 1\x7d") = .str (jsonDumps (.dict [("a", .int 1)])) ∧
    jsonLoads (jsonDumps (.dict [("a", .int 1)])) = some (.dict [("a", .int 1)]) :=
  (C5_string_sanitize "\x7b'a': 1\x7d").2.1 rfl (.json (.dict [("a", .int 1)]))
    (.dict [("a", .int 1)]) rfl rfl

/-- C6: a mapping-valued `arguments` entry in a message's tool-call history
is serialized by the sanitizer to a JSON string that parses back to the
equivalent mapping (round trip). -/
theorem C6_mapping_roundtrip (m : Message) (kvs : List (String × PyVal))
    (hm : ArgVal.dict kvs ∈ m.tool_calls) :
    ArgVal.str (jsonDumps (.dict kvs)) ∈ (sanitizeMessage m).tool_calls ∧
    jsonLoads (jsonDumps (.dict kvs)) = some (.dict kvs) := by
  constructor
  · have h : sanitizeArgs (.dict kvs) = .str (jsonDumps (.dict kvs)) := rfl
    rw [← h]
    exact List.mem_map_of_mem sanitizeArgs hm
  · exact jsonLoads_dumps (.dict kvs)

theorem C6_witness :
    ArgVal.str (jsonDumps (.dict [("a", PyVal.int 1)])) ∈
      (sanitizeMessage ⟨"assistant", none, [.dict [("a", PyVal.int 1)]]⟩).tool_calls ∧
    jsonLoads (jsonDumps (.dict [("a", PyVal.int 1)])) = some (.dict [("a", PyVal.int 1)]) :=
  C6_mapping_roundtrip ⟨"assistant", none, [.dict [("a", PyVal.int 1)]]⟩
    [("a", PyVal.int 1)] (List.mem_singleton.mpr rfl)

/-- C7: `is_mutating` holds exactly for kinds WRITE, SHELL, NETWORK and
MEMORY (READ and MCP are non-mutating), independently of the params; and
`get_confirmation` returns nothing exactly for non-mutating invocations,
otherwise a ToolConfirmation carrying the tool name, the invocation's
params and the description `"Execute <name>"`. -/
theorem C7_mutation_confirmation (t : Tool) (params : Params) (inv : ToolInvocation) :
    (t.is_mutating params = true ↔
      (t.kind = .WRITE ∨ t.kind = .SHELL ∨ t.kind = .NETWORK ∨ t.kind = .MEMORY)) ∧
    (t.is_mutating params = false ↔ (t.kind = .READ ∨ t.kind = .MCP)) ∧
    (∀ p1 p2 : Params, t.is_mutating p1 = t.is_mutating p2) ∧
    (t.get_confirmation inv = none ↔ t.is_mutating inv.params = false) ∧
    (∀ c, t.get_confirmation inv = some c →
      c.tool_name = t.name ∧ c.params = inv.params ∧
        c.description = "Execute " ++ t.name) := by
  refine ⟨?_, ?_, fun p1 p2 => rfl, ?_, ?_⟩
  · cases h : t.kind <;> simp [Tool.is_mutating, h]
  · cases h : t.kind <;> simp [Tool.is_mutating, h]
  · cases h : t.is_mutating inv.params <;> simp [Tool.get_confirmation, h]
  · intro c hc
    unfold Tool.get_confirmation at hc
    split at hc
    · exact absurd hc (by simp)
    · simp only [Option.some.injEq] at hc
      subst hc
      exact ⟨rfl, rfl, rfl⟩

theorem C7_witness :
    ((⟨"write_file", "writes", .WRITE⟩ : Tool).get_confirmation ⟨[("path", .str "a")], "/w"⟩ =
      some ⟨"write_file", [("path", .str "a")], "Execute write_file", none, [], none, false⟩) ∧
    (⟨"read_file", "reads", .READ⟩ : Tool).get_confirmation ⟨[("path", .str "a")], "/w"⟩ =
      none ∧
    ("Execute write_file" : String) = "Execute " ++ "write_file" := by
  refine ⟨rfl, ?_, ?_⟩
  · exact (C7_mutation_confirmation ⟨"read_file", "reads", .READ⟩ []
      ⟨[("path", .str "a")], "/w"⟩).2.2.2.1.mpr rfl
  · exact ((C7_mutation_confirmation ⟨"write_file", "writes", .WRITE⟩ []
      ⟨[("path", .str "a")], "/w"⟩).2.2.2.2
      ⟨"write_file", [("path", .str "a")], "Execute write_file", none, [], none, false⟩
      rfl).2.2.symm

/-- C8: `to_diff` passes the null-device sentinel as the old-file marker
exactly when `is_new_file` (and the real path otherwise), symmetrically
for `is_deletion` on the new side; equal contents produce the empty
string; differing normalized contents produce output beginning with the
`---`/`+++` header pair built from those markers. -/
theorem C8_to_diff (fd : FileDiff) :
    (fd.is_new_file = true → fd.fromName = "/dev/null") ∧
    (fd.is_new_file = false → fd.fromName = fd.path) ∧
    (fd.is_deletion = true → fd.toName = "/dev/null") ∧
    (fd.is_deletion = false → fd.toName = fd.path) ∧
    (fd.old_content = fd.new_content → fd.to_diff = "") ∧
    (fixLastNewline (splitlinesKeepends fd.old_content) ≠
        fixLastNewline (splitlinesKeepends fd.new_content) →
      ∃ rest, fd.to_diff =
        ("--- " ++ fd.fromName ++ "\n") ++ (("+++ " ++ fd.toName ++ "\n") ++ rest)) := by
  refine ⟨?_, ?_, ?_, ?_, ?_, ?_⟩
  · intro h; simp [FileDiff.fromName, h]
  · intro h; simp [FileDiff.fromName, h]
  · intro h; simp [FileDiff.toName, h]
  · intro h; simp [FileDiff.toName, h]
  · intro h
    have e : fd.to_diff = joinStr (unifiedDiff
        (fixLastNewline (splitlinesKeepends fd.old_content))
        (fixLastNewline (splitlinesKeepends fd.new_content)) fd.fromName fd.toName) := rfl
    rw [e, h]
    unfold unifiedDiff
    rw [if_pos rfl]
    rfl
  · intro h
    have e : fd.to_diff = joinStr (unifiedDiff
        (fixLastNewline (splitlinesKeepends fd.old_content))
        (fixLastNewline (splitlinesKeepends fd.new_content)) fd.fromName fd.toName) := rfl
    rw [e]
    unfold unifiedDiff
    rw [if_neg h]
    exact ⟨_, rfl⟩

theorem C8_witness :
    ((⟨"f.txt", "", "x\n", true, false⟩ : FileDiff).fromName = "/dev/null") ∧
    ((⟨"f.txt", "", "x\n", true, false⟩ : FileDiff).toName = "f.txt") ∧
    ((⟨"f.txt", "same", "same", false, false⟩ : FileDiff).to_diff = "") ∧
    (∃ rest, (⟨"f.txt", "", "x\n", true, false⟩ : FileDiff).to_diff =
      ("--- " ++ "/dev/null" ++ "\n") ++ (("+++ " ++ "f.txt" ++ "\n") ++ rest)) := by
  refine ⟨(C8_to_diff _).1 rfl, (C8_to_diff _).2.2.2.1 rfl,
    (C8_to_diff _).2.2.2.2.1 rfl, ?_⟩
  have h := (C8_to_diff (⟨"f.txt", "", "x\n", true, false⟩ : FileDiff)).2.2.2.2.2
    (by decide)
  simpa using h

/-- C2: the claim is right and the code is wrong: every call of
`ScoutTool.execute` constructs `ToolResult` without its required `success`
and `output` fields, so a TypeError escapes `execute` on every path,
including the vector-store-unavailable and missing-query paths the claim
describes. -/
theorem C2_execute_always_raises (ragAvailable collectionOk : Bool)
    (search : Except String String) (inv : ScoutInvocation) :
    isTypeError (scoutExecute ragAvailable collectionOk search inv) = true := by
  unfold scoutExecute
  cases hq : extractQuery inv with
  | error e => rfl
  | ok query =>
    by_cases hf : isFalsy query = true
    · simp [hf, isTypeError, mkToolResult]
    · simp only [hf]
      by_cases hr : (!ragAvailable || !collectionOk) = true
      · simp [hr, isTypeError, mkToolResult]
      · simp only [hr]
        cases search with
        | ok output => simp [isTypeError, mkToolResult]
        | error e => simp [isTypeError, mkToolResult]

end BTP
